import Mathlib

/-!
A shallow embedding of `inv06.py`, the bill-of-materials availability checker.

Python dicts are modelled as association lists in insertion order
(`List (String × _)`); a dict assignment `d[k] = v` is `dinsert`, a read
`d.get(k, 0)` is `dget`, iteration over `d.items()` is a fold over the list.
Python's true division produces a float; we model the ratio arithmetic over ℚ
(exact at every value the development evaluates), and the `f"{r:.0%}"`
format as round-half-even of `r * 100`.  Printing and file I/O are out of
scope per the specification; the functions below return the values the
Python code builds (the report dicts) so that the printed-only data is
visible to the theorems.
-/

namespace Inv06

/-- Association-list lookup, first match wins (Python dict lookup; keys are
unique in a real dict, which theorems assume as `Nodup` where it matters). -/
def dlookup {α : Type} (d : List (String × α)) (k : String) : Option α :=
  match d with
  | [] => none
  | p :: rest => if p.1 = k then some p.2 else dlookup rest k

/-- `d.get(k, default)` of Python. -/
def dget {α : Type} (d : List (String × α)) (k : String) (default : α) : α :=
  (dlookup d k).getD default

/-- The key list of a dict, in insertion order. -/
def dkeys {α : Type} (d : List (String × α)) : List String :=
  d.map (fun p => p.1)

/-- Python dict assignment `d[k] = v`: update in place if the key exists,
otherwise append at the end (insertion order is preserved). -/
def dinsert {α : Type} (d : List (String × α)) (k : String) (v : α) : List (String × α) :=
  if d.any (fun p => decide (p.1 = k)) then
    d.map (fun p => if p.1 = k then (k, v) else p)
  else
    d ++ [(k, v)]

/-- `inv06.py:42` and `inv06.py:66`: `available / required if required > 0
else 0`.  Python's true division of two ints is an exact value here,
modelled as the rational `available /. required` (`Rat.divInt` is exactly
integer-over-integer division in ℚ; see `ratio_of_eq_div`). -/
def ratio_of (available_amount required_amount : Int) : ℚ :=
  if required_amount > 0 then Rat.divInt available_amount required_amount else 0

/-- The rounding `f"{r:.0%}"` performs: round-half-even of `100 * r`,
computed on the numerator/denominator (for `r = n/d` in lowest terms with
`d > 0`, the value is `100n/d`; `f` is its floor, `rem/d` its fractional
part, and ties go to the even neighbour). -/
def roundHalfEven100 (q : ℚ) : ℤ :=
  let v : ℤ := 100 * q.num
  let d : ℤ := (q.den : ℤ)
  let f := Int.fdiv v d
  let rem := v - f * d
  if 2 * rem < d then f
  else if 2 * rem > d then f + 1
  else if f % 2 = 0 then f else f + 1

/-- The `f"{r:.0%}"` percent rendering: scale by 100, round, append `%`. -/
def fmtPct (q : ℚ) : String :=
  toString (roundHalfEven100 q) ++ "%"

/-- `inv06.py:45`–`54`: the colour banding used inside `check_inventory`
(the 0.5 threshold written as the rational 1/2). -/
def check_color (r : ℚ) : String :=
  if r ≥ 1 then "green"
  else if r > 0 then (if r ≥ Rat.divInt 1 2 then "yellow" else "red")
  else "red"

/-- `inv06.py:112`–`119`: the colour banding used inside
`list_needed_shortages` (thresholds 0.5 and 0.1 as rationals). -/
def shortage_color (r : ℚ) : String :=
  if r ≥ 1 then "green"
  else if r ≥ Rat.divInt 1 2 then "yellow"
  else if r ≥ Rat.divInt 1 10 then "white"
  else "red"

/-- Rank of a colour band, for stating monotonicity of the bandings. -/
def band_rank (c : String) : Nat :=
  if c = "red" then 0 else if c = "white" then 1 else if c = "yellow" then 2 else 3

/-- Python `str.strip()`: drop leading and trailing whitespace
(character-level, mirroring the usage on ASCII identifiers). -/
def pyTrim (s : String) : String :=
  ⟨((s.data.dropWhile Char.isWhitespace).reverse.dropWhile Char.isWhitespace).reverse⟩

/-- Python `str.upper()` on the ASCII identifiers used here. -/
def pyUpper (s : String) : String :=
  ⟨s.data.map Char.toUpper⟩

/-- Is the first list a prefix of the second? -/
def isPrefixL : List Char → List Char → Bool
  | [], _ => true
  | _ :: _, [] => false
  | a :: as, b :: bs => a == b && isPrefixL as bs

/-- Python `str.split(sep)` for a nonempty `sep`, character-level: scan left
to right and cut at each non-overlapping occurrence of `sep`.  The fuel
starts above the string length and each step consumes at least one
character, so it is never exhausted. -/
def splitGo (sep : List Char) : Nat → List Char → List Char → List (List Char)
  | 0, s, acc => [acc.reverse ++ s]
  | _ + 1, [], acc => [acc.reverse]
  | fuel + 1, c :: cs, acc =>
    if isPrefixL sep (c :: cs) then
      acc.reverse :: splitGo sep fuel ((c :: cs).drop sep.length) []
    else
      splitGo sep fuel cs (c :: acc)

/-- Python `s.split(sep)` (all occurrences; `"".split(sep) = [""]`). -/
def pySplit (s sep : String) : List String :=
  (splitGo sep.data (s.data.length + 1) s.data []).map (fun l => ⟨l⟩)

/-- Rejoin pieces with the separator (undoes all but the first cut, which
is how Python's `s.split(sep, 1)` relates to a full split). -/
def joinSep (sep : List Char) : List (List Char) → List Char
  | [] => []
  | [x] => x
  | x :: xs => x ++ sep ++ joinSep sep xs

/-- Python `s.split(sep, 1)`: split at the first occurrence of `sep`;
`none` when `sep` does not occur (the `"//" in source` test). -/
def splitFirst (s : String) (sep : String) : Option (String × String) :=
  match splitGo sep.data (s.data.length + 1) s.data [] with
  | [] => none
  | [_] => none
  | a :: rest => some (⟨a⟩, ⟨joinSep sep.data rest⟩)

/-- `inv06.py:57`–`59`: `source.split("//", 1)` then the reference list is
split on `"/"`; `none` when the descriptor has no `"//"` delimiter. -/
def parse_source (source : String) : Option (String × List String) :=
  match splitFirst source "//" with
  | none => none
  | some pr => some (pr.1, pySplit pr.2 "/")

/-- `inv06.py:61`–`70`: render one chain reference.  The token is trimmed and
upper-cased only for the inventory lookup; the divisor is the
`required_amount` passed in, which at the call site is always the current
(parent) component's requirement. -/
def formatRef (inventory : List (String × Int)) (required_amount : Int) (rc : String) : String :=
  match dlookup inventory (pyUpper (pyTrim rc)) with
  | some stock => pyTrim rc ++ "(" ++ fmtPct (ratio_of stock required_amount) ++ ")"
  | none => pyTrim rc ++ "(" ++ "0%" ++ ")"

/-- `inv06.py:56`–`72`: rewrite a source descriptor.  Plain descriptors pass
through unchanged; chain descriptors get each reference annotated. -/
def resolve_source (inventory : List (String × Int)) (required_amount : Int) (source : String) : String :=
  match parse_source source with
  | none => source
  | some pt => pt.1 ++ "//" ++ String.intercalate "/" (pt.2.map (formatRef inventory required_amount))

/-- One row of the per-product report (`inv06.py:77`). -/
structure ResultEntry where
  component : String
  needed : Int
  available : Int
  color : String
  source : String
deriving DecidableEq

/-- `inv06.py:40`–`77`: the per-component body of the `check_inventory` loop. -/
def check_component (inventory : List (String × Int)) (component : String)
    (required_amount : Int) (source : String) : ResultEntry :=
  let available_amount := dget inventory component 0
  let available_ratio := ratio_of available_amount required_amount
  let color := check_color available_ratio
  { component := component
    needed := required_amount
    available := available_amount
    color := color
    source := resolve_source inventory required_amount source }

/-- `inv06.py:32`–`82`: `check_inventory` builds `product -> ordered rows`.
The outer dict assignment is `dinsert`; the inner `product_report.append`
loop is the `map`. -/
def check_inventory (inventory : List (String × Int))
    (recipes : List (String × List (String × Int × String))) :
    List (String × List ResultEntry) :=
  recipes.foldl
    (fun acc pr =>
      dinsert acc pr.1 (pr.2.map (fun c => check_component inventory c.1 c.2.1 c.2.2)))
    []

/-- `inv06.py:86`–`90`: the unneeded-inventory dict the function builds
(the Python function only prints it; we return it to make it observable). -/
def find_unneeded_inventory (inventory : List (String × Int))
    (recipes : List (String × List (String × Int × String))) : List (String × Int) :=
  inventory.filter
    (fun p => decide (p.1 ∉ recipes.foldl (fun s pr => s ++ dkeys pr.2) ([] : List String)))

/-- `inv06.py:100`–`102`: accumulate every BOM's required amounts per item. -/
def accumulate_needed (recipes : List (String × List (String × Int × String))) :
    List (String × Int) :=
  recipes.foldl
    (fun d pr => pr.2.foldl (fun d c => dinsert d c.1 (dget d c.1 0 + c.2.1)) d)
    []

/-- `inv06.py:103`–`105`: subtract each stored amount once from its item. -/
def subtract_stock (inventory : List (String × Int)) (d : List (String × Int)) :
    List (String × Int) :=
  inventory.foldl
    (fun d p =>
      if d.any (fun q => decide (q.1 = p.1)) then
        d.map (fun q => if q.1 = p.1 then (q.1, q.2 - p.2) else q)
      else d)
    d

/-- `inv06.py:98`–`106`: the shortages dict the function builds and then
prints: accumulate, subtract stock once, keep strictly positive remainders. -/
def list_needed_shortages (inventory : List (String × Int))
    (recipes : List (String × List (String × Int × String))) : List (String × Int) :=
  (subtract_stock inventory (accumulate_needed recipes)).filter (fun p => decide (p.2 > 0))

/-- `inv06.py:110`–`111`: the ratio the shortage print loop classifies. -/
def shortage_item_color (inventory : List (String × Int)) (shortage : Int) (item : String) : String :=
  let total_needed := shortage + dget inventory item 0
  shortage_color (ratio_of (dget inventory item 0) total_needed)

/-- One entry of the hard-coded process list (`inv06.py:204`–`208`); the file
loaders `read_inventory`/`read_recipes` are the out-of-scope parsing
adapters, so a process carries the two loaded mappings directly. -/
structure Process where
  name : String
  inventory : List (String × Int)
  recipe : List (String × List (String × Int × String))
deriving DecidableEq

/-- `inv06.py:126`–`133`: one iteration of the `run_inventory_checks` loop.
The unneeded and shortage passes are executed (for printing) and their
values discarded; only the `check_inventory` report is stored. -/
def run_step (acc : List (String × List (String × List ResultEntry)))
    (p : Process) : List (String × List (String × List ResultEntry)) :=
  let _ := find_unneeded_inventory p.inventory p.recipe
  let _ := list_needed_shortages p.inventory p.recipe
  dinsert acc p.name (check_inventory p.inventory p.recipe)

/-- `inv06.py:124`–`134`: `run_inventory_checks`. -/
def run_inventory_checks (processes : List Process) :
    List (String × List (String × List ResultEntry)) :=
  processes.foldl run_step []

/-- The spec's description of the shortage total (§4.3): the sum of
`requiredAmount` for `k` over every BOM that references it. -/
def total_required_spec (recipes : List (String × List (String × Int × String)))
    (k : String) : Int :=
  (recipes.map (fun pr => ((pr.2.filter (fun c => decide (c.1 = k))).map (fun c => c.2.1)).sum)).sum

/-- Required amounts for `k` inside one BOM (duplicate keys summed; a real
dict has none). -/
def comp_sum (comps : List (String × Int × String)) (k : String) : Int :=
  ((comps.filter (fun c => decide (c.1 = k))).map (fun c => c.2.1)).sum

/-! State-threaded translation for the mutation claims.  The state carries
the two input mappings; every dictionary operation the Python code performs
on them (`inventory.get`, `in inventory`, iteration over `.items()`) is
modelled as an operation taking and returning the state, so that an
in-place write anywhere in the translated code would be visible as a
changed state.  The source performs only reads on its inputs; its local
dicts (`product_report`, `needed_shortages`, …) are fresh per call. -/

/-- The two input mappings of one process run. -/
structure St where
  inventory : List (String × Int)
  recipes : List (String × List (String × Int × String))
deriving DecidableEq

/-- `inventory.get(k, …)` / `k in inventory` as a state operation. -/
def read_inv (s : St) (k : String) : Option Int × St :=
  (dlookup s.inventory k, s)

/-- `formatRef`, with the inventory lookup threaded through the state. -/
def formatRef_st (s : St) (required_amount : Int) (rc : String) : String × St :=
  match read_inv s (pyUpper (pyTrim rc)) with
  | (some stock, s2) => (pyTrim rc ++ "(" ++ fmtPct (ratio_of stock required_amount) ++ ")", s2)
  | (none, s2) => (pyTrim rc ++ "(" ++ "0%" ++ ")", s2)

/-- `resolve_source`, threading the state through each reference. -/
def resolve_source_st (s : St) (required_amount : Int) (source : String) : String × St :=
  match parse_source source with
  | none => (source, s)
  | some pt =>
    let r := pt.2.foldl
      (fun (acc : List String × St) rc =>
        let fr := formatRef_st acc.2 required_amount rc
        (acc.1 ++ [fr.1], fr.2)) ([], s)
    (pt.1 ++ "//" ++ String.intercalate "/" r.1, r.2)

/-- `check_component`, threading the state through its two reads. -/
def check_component_st (s : St) (component : String) (required_amount : Int)
    (source : String) : ResultEntry × St :=
  let av := read_inv s component
  let available_amount := av.1.getD 0
  let rs := resolve_source_st av.2 required_amount source
  (⟨component, required_amount, available_amount,
    check_color (ratio_of available_amount required_amount), rs.1⟩, rs.2)

/-- `check_inventory`, threading the state through both loops. -/
def check_inventory_st (s : St) : List (String × List ResultEntry) × St :=
  s.recipes.foldl
    (fun (acc : List (String × List ResultEntry) × St) pr =>
      let inner := pr.2.foldl
        (fun (a : List ResultEntry × St) c =>
          let e := check_component_st a.2 c.1 c.2.1 c.2.2
          (a.1 ++ [e.1], e.2)) ([], acc.2)
      (dinsert acc.1 pr.1 inner.1, inner.2))
    ([], s)

/-- `find_unneeded_inventory` over the state: it only iterates the two
input mappings, building a fresh local dict. -/
def find_unneeded_inventory_st (s : St) : List (String × Int) × St :=
  let needed_items := s.recipes.foldl (fun a pr => a ++ dkeys pr.2) ([] : List String)
  (s.inventory.filter (fun p => decide (p.1 ∉ needed_items)), s)

/-- `list_needed_shortages` over the state: both passes iterate the input
mappings and mutate only the fresh local `needed_shortages` dict. -/
def list_needed_shortages_st (s : St) : List (String × Int) × St :=
  ((subtract_stock s.inventory (accumulate_needed s.recipes)).filter
    (fun p => decide (p.2 > 0)), s)

/-! Association-list lemmas. -/

section DictLemmas

variable {α : Type}

theorem any_key_iff (d : List (String × α)) (k : String) :
    d.any (fun p => decide (p.1 = k)) = true ↔ k ∈ dkeys d := by
  simp [dkeys, List.any_eq_true, List.mem_map]

theorem dlookup_eq_none_iff (d : List (String × α)) (k : String) :
    dlookup d k = none ↔ k ∉ dkeys d := by
  induction d with
  | nil => simp [dlookup, dkeys]
  | cons p rest ih =>
    by_cases h : p.1 = k
    · simp [dlookup, dkeys, h]
    · simp [dlookup, dkeys, h, ih, Ne.symm h]

theorem mem_dkeys_iff_lookup (d : List (String × α)) (k : String) :
    k ∈ dkeys d ↔ dlookup d k ≠ none := by
  rw [Ne, dlookup_eq_none_iff, not_not]

theorem dlookup_mem {d : List (String × α)} {k : String} {v : α}
    (h : dlookup d k = some v) : (k, v) ∈ d := by
  induction d with
  | nil => simp [dlookup] at h
  | cons p rest ih =>
    obtain ⟨p1, p2⟩ := p
    by_cases hp : p1 = k
    · subst hp
      simp [dlookup] at h
      subst h
      exact List.mem_cons_self _ _
    · simp [dlookup, hp] at h
      exact List.mem_cons_of_mem _ (ih h)

theorem dlookup_some_mem_keys {d : List (String × α)} {k : String} {v : α}
    (h : dlookup d k = some v) : k ∈ dkeys d := by
  rw [mem_dkeys_iff_lookup, h]
  simp

theorem dlookup_append (d e : List (String × α)) (k : String) :
    dlookup (d ++ e) k = if k ∈ dkeys d then dlookup d k else dlookup e k := by
  induction d with
  | nil => simp [dlookup, dkeys]
  | cons p rest ih =>
    obtain ⟨p1, p2⟩ := p
    show (if p1 = k then some p2 else dlookup (rest ++ e) k) = _
    by_cases hp : p1 = k
    · subst hp
      simp [dlookup, dkeys]
    · rw [if_neg hp, ih]
      have hmem : (k ∈ dkeys ((p1, p2) :: rest)) ↔ (k ∈ dkeys rest) := by
        simp [dkeys, Ne.symm hp]
      by_cases hm : k ∈ dkeys rest
      · rw [if_pos hm, if_pos (hmem.mpr hm)]
        show dlookup rest k = if p1 = k then some p2 else dlookup rest k
        rw [if_neg hp]
      · rw [if_neg hm, if_neg (fun h => hm (hmem.mp h))]

theorem dlookup_map_update (d : List (String × α)) (k k' : String) (v : α) :
    dlookup (d.map (fun p => if p.1 = k then (k, v) else p)) k' =
      if k' = k then (dlookup d k).map (fun _ => v) else dlookup d k' := by
  induction d with
  | nil => simp [dlookup]
  | cons p rest ih =>
    obtain ⟨p1, p2⟩ := p
    by_cases hp : p1 = k
    · subst hp
      by_cases hk : k' = p1
      · subst hk
        simp [dlookup, ih]
      · simp [dlookup, hk, show ¬p1 = k' from fun h => hk h.symm, ih]
    · by_cases hpk : p1 = k'
      · subst hpk
        simp [dlookup, hp, show ¬p1 = k from hp]
      · simp [dlookup, hp, hpk, ih]

theorem dlookup_dinsert_self (d : List (String × α)) (k : String) (v : α) :
    dlookup (dinsert d k v) k = some v := by
  unfold dinsert
  by_cases h : d.any (fun p => decide (p.1 = k)) = true
  · rw [if_pos h, dlookup_map_update, if_pos rfl]
    rw [any_key_iff, mem_dkeys_iff_lookup] at h
    cases hl : dlookup d k with
    | none => exact absurd hl h
    | some w => simp
  · rw [if_neg h, dlookup_append,
      if_neg (fun hm => h ((any_key_iff d k).mpr hm))]
    simp [dlookup]

theorem dlookup_dinsert_ne (d : List (String × α)) (k k' : String) (v : α)
    (hne : k' ≠ k) : dlookup (dinsert d k v) k' = dlookup d k' := by
  unfold dinsert
  by_cases h : d.any (fun p => decide (p.1 = k)) = true
  · rw [if_pos h, dlookup_map_update, if_neg hne]
  · rw [if_neg h, dlookup_append]
    by_cases hm : k' ∈ dkeys d
    · rw [if_pos hm]
    · rw [if_neg hm, (dlookup_eq_none_iff d k').mpr hm]
      simp [dlookup, Ne.symm hne]

theorem dkeys_map_update (d : List (String × α)) (k : String) (v : α) :
    dkeys (d.map (fun p => if p.1 = k then (k, v) else p)) = dkeys d := by
  unfold dkeys
  rw [List.map_map]
  refine List.map_congr_left ?_
  intro p _
  by_cases hp : p.1 = k
  · simp [hp]
  · simp [hp]

theorem dkeys_dinsert (d : List (String × α)) (k : String) (v : α) :
    dkeys (dinsert d k v) = if k ∈ dkeys d then dkeys d else dkeys d ++ [k] := by
  unfold dinsert
  by_cases h : d.any (fun p => decide (p.1 = k)) = true
  · rw [if_pos h, dkeys_map_update, if_pos ((any_key_iff d k).mp h)]
  · rw [if_neg h, if_neg (fun hm => h ((any_key_iff d k).mpr hm))]
    simp [dkeys]

theorem mem_dkeys_dinsert (d : List (String × α)) (k x : String) (v : α) :
    x ∈ dkeys (dinsert d k v) ↔ x ∈ dkeys d ∨ x = k := by
  rw [dkeys_dinsert]
  by_cases h : k ∈ dkeys d
  · rw [if_pos h]
    constructor
    · exact Or.inl
    · rintro (hx | rfl) <;> assumption
  · rw [if_neg h]
    simp

theorem nodup_dkeys_dinsert (d : List (String × α)) (k : String) (v : α)
    (h : (dkeys d).Nodup) : (dkeys (dinsert d k v)).Nodup := by
  rw [dkeys_dinsert]
  by_cases hm : k ∈ dkeys d
  · rwa [if_pos hm]
  · rw [if_neg hm, List.nodup_append]
    exact ⟨h, List.nodup_singleton k, List.disjoint_singleton.mpr hm⟩

theorem mem_dkeys_filter {d : List (String × α)} {f : String × α → Bool} {x : String}
    (h : x ∈ dkeys (d.filter f)) : x ∈ dkeys d := by
  simp only [dkeys, List.mem_map] at h ⊢
  obtain ⟨p, hp, rfl⟩ := h
  exact ⟨p, (List.mem_filter.mp hp).1, rfl⟩

end DictLemmas

/-! Lemmas about the shortage pipeline. -/

theorem comp_sum_nil (k : String) : comp_sum [] k = 0 := rfl

theorem comp_sum_cons (c : String × Int × String) (rest : List (String × Int × String))
    (k : String) :
    comp_sum (c :: rest) k = (if c.1 = k then c.2.1 else 0) + comp_sum rest k := by
  by_cases hc : c.1 = k
  · simp [comp_sum, List.filter_cons, hc]
  · simp [comp_sum, List.filter_cons, hc]

theorem comp_sum_eq_zero {comps : List (String × Int × String)} {k : String}
    (h : comps.any (fun c => decide (c.1 = k)) = false) : comp_sum comps k = 0 := by
  induction comps with
  | nil => rfl
  | cons c rest ih =>
    simp only [List.any_cons, Bool.or_eq_false_iff, decide_eq_false_iff_not] at h
    rw [comp_sum_cons, if_neg h.1, ih h.2, add_zero]

theorem total_spec_nil (k : String) : total_required_spec [] k = 0 := rfl

theorem total_spec_cons (pr : String × List (String × Int × String))
    (rest : List (String × List (String × Int × String))) (k : String) :
    total_required_spec (pr :: rest) k = comp_sum pr.2 k + total_required_spec rest k := by
  simp [total_required_spec, comp_sum]

theorem total_spec_eq_zero {recipes : List (String × List (String × Int × String))} {k : String}
    (h : recipes.any (fun pr => pr.2.any (fun c => decide (c.1 = k))) = false) :
    total_required_spec recipes k = 0 := by
  induction recipes with
  | nil => rfl
  | cons pr rest ih =>
    simp only [List.any_cons, Bool.or_eq_false_iff] at h
    rw [total_spec_cons, comp_sum_eq_zero h.1, ih h.2, add_zero]

theorem acc_inner_lookup (comps : List (String × Int × String)) :
    ∀ (d : List (String × Int)) (k : String),
      dlookup (comps.foldl (fun d c => dinsert d c.1 (dget d c.1 0 + c.2.1)) d) k =
        if k ∈ dkeys d ∨ comps.any (fun c => decide (c.1 = k)) = true
        then some (dget d k 0 + comp_sum comps k) else none := by
  induction comps with
  | nil =>
    intro d k
    rw [List.foldl_nil]
    by_cases hm : k ∈ dkeys d
    · rw [if_pos (Or.inl hm)]
      rw [mem_dkeys_iff_lookup] at hm
      cases hl : dlookup d k with
      | none => exact absurd hl hm
      | some v => simp [dget, hl, comp_sum]
    · rw [if_neg (by simp [hm])]
      exact (dlookup_eq_none_iff d k).mpr hm
  | cons c rest ih =>
    intro d k
    rw [List.foldl_cons, ih]
    by_cases hc : c.1 = k
    · subst hc
      have hl : dlookup (dinsert d c.1 (dget d c.1 0 + c.2.1)) c.1 =
          some (dget d c.1 0 + c.2.1) := dlookup_dinsert_self d c.1 _
      rw [if_pos (Or.inl (dlookup_some_mem_keys hl)),
        if_pos (Or.inr (by simp)), comp_sum_cons, if_pos rfl]
      simp only [dget] at hl ⊢
      rw [hl]
      simp [add_assoc]
    · have hlk : dlookup (dinsert d c.1 (dget d c.1 0 + c.2.1)) k = dlookup d k :=
        dlookup_dinsert_ne d c.1 k _ (fun h => hc h.symm)
      have hget : dget (dinsert d c.1 (dget d c.1 0 + c.2.1)) k 0 = dget d k 0 := by
        simp only [dget] at hlk ⊢
        rw [hlk]
      have hcond : (k ∈ dkeys (dinsert d c.1 (dget d c.1 0 + c.2.1)) ∨
            rest.any (fun c => decide (c.1 = k)) = true) ↔
          (k ∈ dkeys d ∨ (c :: rest).any (fun c => decide (c.1 = k)) = true) := by
        have hkc : ¬k = c.1 := fun h => hc h.symm
        rw [mem_dkeys_dinsert]
        simp [List.any_cons, hc, hkc, or_assoc]
      rw [comp_sum_cons, if_neg hc, zero_add, hget, if_congr hcond rfl rfl]

theorem acc_outer_lookup (recipes : List (String × List (String × Int × String))) :
    ∀ (d : List (String × Int)) (k : String),
      dlookup (recipes.foldl
          (fun d pr => pr.2.foldl (fun d c => dinsert d c.1 (dget d c.1 0 + c.2.1)) d) d) k =
        if k ∈ dkeys d ∨ recipes.any (fun pr => pr.2.any (fun c => decide (c.1 = k))) = true
        then some (dget d k 0 + total_required_spec recipes k) else none := by
  induction recipes with
  | nil =>
    intro d k
    rw [List.foldl_nil]
    by_cases hm : k ∈ dkeys d
    · rw [if_pos (Or.inl hm)]
      rw [mem_dkeys_iff_lookup] at hm
      cases hl : dlookup d k with
      | none => exact absurd hl hm
      | some v => simp [dget, hl, total_spec_nil]
    · rw [if_neg (by simp [hm])]
      exact (dlookup_eq_none_iff d k).mpr hm
  | cons pr rest ih =>
    intro d k
    rw [List.foldl_cons, ih]
    have h1 := acc_inner_lookup pr.2 d k
    have hkeys : k ∈ dkeys (pr.2.foldl (fun d c => dinsert d c.1 (dget d c.1 0 + c.2.1)) d) ↔
        (k ∈ dkeys d ∨ pr.2.any (fun c => decide (c.1 = k)) = true) := by
      rw [mem_dkeys_iff_lookup, h1]
      split_ifs with hcond
      · exact iff_of_true (by simp) hcond
      · exact iff_of_false (by simp) hcond
    have hget : dget (pr.2.foldl (fun d c => dinsert d c.1 (dget d c.1 0 + c.2.1)) d) k 0 =
        if k ∈ dkeys d ∨ pr.2.any (fun c => decide (c.1 = k)) = true
        then dget d k 0 + comp_sum pr.2 k else 0 := by
      rw [dget, h1]
      split_ifs <;> simp
    by_cases hA : k ∈ dkeys d ∨ pr.2.any (fun c => decide (c.1 = k)) = true
    · have hBa : k ∈ dkeys d ∨
          ((pr :: rest).any (fun pr => pr.2.any (fun c => decide (c.1 = k))) = true) := by
        rcases hA with h | h
        · exact Or.inl h
        · exact Or.inr (by simp [List.any_cons, h])
      rw [if_pos (Or.inl (hkeys.mpr hA)), if_pos hBa, hget, if_pos hA,
        total_spec_cons, add_assoc]
    · obtain ⟨ha, hb⟩ := not_or.mp hA
      have hd0 : dget d k 0 = 0 := by
        simp [dget, (dlookup_eq_none_iff d k).mpr ha]
      have hcz : comp_sum pr.2 k = 0 :=
        comp_sum_eq_zero (Bool.not_eq_true _ ▸ hb)
      by_cases hR : rest.any (fun pr => pr.2.any (fun c => decide (c.1 = k))) = true
      · rw [if_pos (Or.inr hR), if_pos (Or.inr (by simp [List.any_cons, hR])),
          hget, if_neg hA, hd0, total_spec_cons, hcz]
        simp
      · rw [if_neg (by
            rintro (hm | hm)
            · exact hA (hkeys.mp hm)
            · exact hR hm),
          if_neg (by
            rintro (hm | hm)
            · exact ha hm
            · simp only [List.any_cons, Bool.or_eq_true] at hm
              rcases hm with hm | hm
              · exact hb hm
              · exact hR hm)]

theorem acc_needed_lookup (recipes : List (String × List (String × Int × String))) (k : String) :
    dlookup (accumulate_needed recipes) k =
      if recipes.any (fun pr => pr.2.any (fun c => decide (c.1 = k))) = true
      then some (total_required_spec recipes k) else none := by
  unfold accumulate_needed
  rw [acc_outer_lookup]
  have hval : dget ([] : List (String × Int)) k 0 + total_required_spec recipes k =
      total_required_spec recipes k := by
    simp [dget, dlookup]
  rw [hval]
  have hc : (k ∈ dkeys ([] : List (String × Int)) ∨
      (recipes.any fun pr => pr.2.any fun c => decide (c.1 = k)) = true) ↔
      ((recipes.any fun pr => pr.2.any fun c => decide (c.1 = k)) = true) := by
    simp [dkeys]
  rw [if_congr hc rfl rfl]

theorem nodup_acc_inner (comps : List (String × Int × String)) :
    ∀ d : List (String × Int), (dkeys d).Nodup →
      (dkeys (comps.foldl (fun d c => dinsert d c.1 (dget d c.1 0 + c.2.1)) d)).Nodup := by
  induction comps with
  | nil => intro d h; exact h
  | cons c rest ih => intro d h; exact ih _ (nodup_dkeys_dinsert _ _ _ h)

theorem nodup_accumulate (recipes : List (String × List (String × Int × String))) :
    (dkeys (accumulate_needed recipes)).Nodup := by
  unfold accumulate_needed
  have : ∀ (rs : List (String × List (String × Int × String))) (d : List (String × Int)),
      (dkeys d).Nodup →
      (dkeys (rs.foldl
        (fun d pr => pr.2.foldl (fun d c => dinsert d c.1 (dget d c.1 0 + c.2.1)) d) d)).Nodup := by
    intro rs
    induction rs with
    | nil => intro d h; exact h
    | cons pr rest ih => intro d h; exact ih _ (nodup_acc_inner pr.2 d h)
  exact this recipes [] (by simp [dkeys])

theorem sub_map_lookup (d : List (String × Int)) (i : String) (s : Int) (k : String) :
    dlookup (d.map (fun q => if q.1 = i then (q.1, q.2 - s) else q)) k =
      if k = i then (dlookup d k).map (fun v => v - s) else dlookup d k := by
  induction d with
  | nil => simp [dlookup]
  | cons q rest ih =>
    obtain ⟨q1, q2⟩ := q
    by_cases hq : q1 = i
    · subst hq
      by_cases hk : k = q1
      · subst hk
        simp [dlookup, ih]
      · simp [dlookup, show ¬q1 = k from fun h => hk h.symm, hk, ih]
    · by_cases hk2 : q1 = k
      · subst hk2
        simp [dlookup, hq, show ¬q1 = i from hq]
      · simp [dlookup, hq, hk2, ih]

theorem sub_step_lookup (d : List (String × Int)) (i : String) (s : Int) (k : String) :
    dlookup (if d.any (fun q => decide (q.1 = i)) = true
             then d.map (fun q => if q.1 = i then (q.1, q.2 - s) else q) else d) k =
      if k = i then (dlookup d k).map (fun v => v - s) else dlookup d k := by
  by_cases h : d.any (fun q => decide (q.1 = i)) = true
  · rw [if_pos h, sub_map_lookup]
  · rw [if_neg h]
    by_cases hk : k = i
    · subst hk
      rw [if_pos rfl, (dlookup_eq_none_iff d k).mpr (fun hm => h ((any_key_iff d k).mpr hm))]
      rfl
    · rw [if_neg hk]

theorem sub_step_keys (d : List (String × Int)) (i : String) (s : Int) :
    dkeys (if d.any (fun q => decide (q.1 = i)) = true
           then d.map (fun q => if q.1 = i then (q.1, q.2 - s) else q) else d) = dkeys d := by
  by_cases h : d.any (fun q => decide (q.1 = i)) = true
  · rw [if_pos h]
    unfold dkeys
    rw [List.map_map]
    refine List.map_congr_left ?_
    intro q _
    by_cases hq : q.1 = i <;> simp [hq]
  · rw [if_neg h]

theorem sub_fold_lookup (inv : List (String × Int)) :
    ∀ (d : List (String × Int)) (k : String), (dkeys inv).Nodup →
      dlookup (subtract_stock inv d) k = (dlookup d k).map (fun v => v - dget inv k 0) := by
  induction inv with
  | nil =>
    intro d k _
    show dlookup d k = _
    cases hl : dlookup d k <;> simp [dget, dlookup, hl]
  | cons p rest ih =>
    intro d k hnd
    obtain ⟨i, s⟩ := p
    simp only [dkeys, List.map_cons] at hnd
    have hnotin : i ∉ dkeys rest := by
      have := (List.nodup_cons.mp hnd).1
      simpa [dkeys] using this
    have hndr : (dkeys rest).Nodup := by
      have := (List.nodup_cons.mp hnd).2
      simpa [dkeys] using this
    show dlookup (subtract_stock rest _) k = _
    rw [ih _ k hndr, sub_step_lookup]
    by_cases hk : k = i
    · subst hk
      rw [if_pos rfl]
      have hri : dget rest k 0 = 0 := by
        simp [dget, (dlookup_eq_none_iff rest k).mpr hnotin]
      have hdg : dget ((k, s) :: rest) k 0 = s := by simp [dget, dlookup]
      rw [hri, hdg]
      cases dlookup d k <;> simp
    · rw [if_neg hk]
      have hdg : dget ((i, s) :: rest) k 0 = dget rest k 0 := by
        simp [dget, dlookup, show ¬i = k from fun h => hk h.symm]
      rw [hdg]

theorem sub_fold_keys (inv : List (String × Int)) :
    ∀ d : List (String × Int), dkeys (subtract_stock inv d) = dkeys d := by
  induction inv with
  | nil => intro d; rfl
  | cons p rest ih =>
    intro d
    show dkeys (subtract_stock rest _) = _
    rw [ih, sub_step_keys]

theorem filter_pos_lookup (d : List (String × Int)) (k : String) (hnd : (dkeys d).Nodup) :
    dlookup (d.filter (fun p => decide (p.2 > 0))) k =
      (dlookup d k).bind (fun v => if v > 0 then some v else none) := by
  induction d with
  | nil => simp [dlookup]
  | cons p rest ih =>
    obtain ⟨a, b⟩ := p
    simp only [dkeys, List.map_cons] at hnd
    have hnotin : a ∉ dkeys rest := by
      have := (List.nodup_cons.mp hnd).1
      simpa [dkeys] using this
    have hrest := ih (by
      have := (List.nodup_cons.mp hnd).2
      simpa [dkeys] using this)
    by_cases hk : a = k
    · subst hk
      by_cases hb : b > 0
      · simp [List.filter_cons, hb, dlookup]
      · rw [List.filter_cons, if_neg (by simpa using hb)]
        rw [(dlookup_eq_none_iff _ a).mpr (fun hm => hnotin (mem_dkeys_filter hm))]
        simp [dlookup, hb]
    · by_cases hb : b > 0
      · rw [List.filter_cons, if_pos (by simpa using hb)]
        show (if a = k then some b else dlookup (rest.filter _) k) = _
        rw [if_neg hk, hrest]
        show _ = (if a = k then some b else dlookup rest k).bind _
        rw [if_neg hk]
      · rw [List.filter_cons, if_neg (by simpa using hb), hrest]
        show _ = (if a = k then some b else dlookup rest k).bind _
        rw [if_neg hk]

/-! Lemma for the unneeded-inventory set. -/

theorem needed_fold_mem (recipes : List (String × List (String × Int × String))) :
    ∀ (acc : List String) (x : String),
      x ∈ recipes.foldl (fun s pr => s ++ dkeys pr.2) acc ↔
        x ∈ acc ∨ ∃ pr ∈ recipes, x ∈ dkeys pr.2 := by
  induction recipes with
  | nil => intro acc x; simp
  | cons pr rest ih =>
    intro acc x
    rw [List.foldl_cons, ih]
    simp [List.mem_append]
    tauto

theorem mem_unneeded_iff (inventory : List (String × Int))
    (recipes : List (String × List (String × Int × String))) (k : String) :
    k ∈ dkeys (find_unneeded_inventory inventory recipes) ↔
      k ∈ dkeys inventory ∧ ∀ pr ∈ recipes, k ∉ dkeys pr.2 := by
  unfold find_unneeded_inventory
  constructor
  · intro h
    obtain ⟨p, hp, rfl⟩ := List.mem_map.mp h
    obtain ⟨hpmem, hpf⟩ := List.mem_filter.mp hp
    rw [decide_eq_true_eq, needed_fold_mem] at hpf
    push_neg at hpf
    exact ⟨List.mem_map_of_mem _ hpmem, fun pr hpr hmem => hpf.2 pr hpr hmem⟩
  · rintro ⟨hmem, hall⟩
    obtain ⟨p, hpmem, rfl⟩ := List.mem_map.mp hmem
    refine List.mem_map_of_mem _ (List.mem_filter.mpr ⟨hpmem, ?_⟩)
    rw [decide_eq_true_eq, needed_fold_mem]
    push_neg
    exact ⟨List.not_mem_nil _, hall⟩

/-! Lemmas about the `run_inventory_checks` fold. -/

theorem run_fold_other (ps : List Process) :
    ∀ (acc : List (String × List (String × List ResultEntry))) (k : String),
      k ∉ ps.map Process.name → dlookup (ps.foldl run_step acc) k = dlookup acc k := by
  induction ps with
  | nil => intro acc k _; rfl
  | cons q rest ih =>
    intro acc k hk
    simp only [List.map_cons, List.mem_cons] at hk
    push_neg at hk
    rw [List.foldl_cons, ih _ k hk.2]
    show dlookup (dinsert acc q.name _) k = _
    exact dlookup_dinsert_ne _ _ _ _ hk.1

theorem run_fold_lookup (ps : List Process) :
    ∀ (acc : List (String × List (String × List ResultEntry))) (p : Process),
      p ∈ ps → (ps.map Process.name).Nodup → p.name ∉ dkeys acc →
      dlookup (ps.foldl run_step acc) p.name =
        some (check_inventory p.inventory p.recipe) := by
  induction ps with
  | nil => intro acc p hp _ _; exact absurd hp (List.not_mem_nil p)
  | cons q rest ih =>
    intro acc p hp hnd hacc
    rw [List.foldl_cons]
    simp only [List.map_cons] at hnd
    obtain ⟨hq, hndr⟩ := List.nodup_cons.mp hnd
    rcases List.mem_cons.mp hp with rfl | hp2
    · rw [run_fold_other rest _ p.name hq]
      show dlookup (dinsert acc p.name (check_inventory p.inventory p.recipe)) p.name = _
      exact dlookup_dinsert_self _ _ _
    · refine ih _ p hp2 hndr ?_
      show p.name ∉ dkeys (dinsert acc q.name (check_inventory q.inventory q.recipe))
      rw [mem_dkeys_dinsert]
      rintro (hm | hm)
      · exact hacc hm
      · exact hq (hm ▸ List.mem_map_of_mem Process.name hp2)

/-! State-threading lemmas: the translated resolver only reads the input
mappings, so it leaves the state unchanged and computes the pure result. -/

theorem formatRef_st_eq (s : St) (req : Int) (rc : String) :
    formatRef_st s req rc = (formatRef s.inventory req rc, s) := by
  unfold formatRef_st formatRef read_inv
  cases h : dlookup s.inventory (pyUpper (pyTrim rc)) with
  | none => simp [h]
  | some stock => simp [h]

theorem resolve_source_st_eq (s : St) (req : Int) (src : String) :
    resolve_source_st s req src = (resolve_source s.inventory req src, s) := by
  have hfold : ∀ (toks : List String) (accL : List String),
      toks.foldl (fun (acc : List String × St) rc =>
        let fr := formatRef_st acc.2 req rc
        (acc.1 ++ [fr.1], fr.2)) (accL, s) =
      (accL ++ toks.map (formatRef s.inventory req), s) := by
    intro toks
    induction toks with
    | nil => intro accL; simp
    | cons t rest ihh =>
      intro accL
      rw [List.foldl_cons]
      have hstep : (let fr := formatRef_st (accL, s).2 req t
          ((accL, s).1 ++ [fr.1], fr.2)) = (accL ++ [formatRef s.inventory req t], s) := by
        simp [formatRef_st_eq]
      rw [hstep, ihh]
      simp
  unfold resolve_source_st resolve_source
  cases hp : parse_source src with
  | none => rfl
  | some pt =>
    show (let r := pt.2.foldl (fun (acc : List String × St) rc =>
          let fr := formatRef_st acc.2 req rc
          (acc.1 ++ [fr.1], fr.2)) ([], s)
        (pt.1 ++ "//" ++ String.intercalate "/" r.1, r.2)) =
      (pt.1 ++ "//" ++ String.intercalate "/" (pt.2.map (formatRef s.inventory req)), s)
    rw [hfold]
    simp

theorem check_component_st_eq (s : St) (c : String) (req : Int) (src : String) :
    check_component_st s c req src = (check_component s.inventory c req src, s) := by
  simp [check_component_st, check_component, read_inv, dget, resolve_source_st_eq]

theorem check_inner_fold_st (s : St) (comps : List (String × Int × String)) :
    ∀ aL : List ResultEntry,
      comps.foldl (fun (a : List ResultEntry × St) c =>
        let e := check_component_st a.2 c.1 c.2.1 c.2.2
        (a.1 ++ [e.1], e.2)) (aL, s) =
      (aL ++ comps.map (fun c => check_component s.inventory c.1 c.2.1 c.2.2), s) := by
  induction comps with
  | nil => intro aL; simp
  | cons c crest ihc =>
    intro aL
    rw [List.foldl_cons]
    have hstep : (let e := check_component_st (aL, s).2 c.1 c.2.1 c.2.2
        ((aL, s).1 ++ [e.1], e.2)) =
        (aL ++ [check_component s.inventory c.1 c.2.1 c.2.2], s) := by
      simp [check_component_st_eq]
    rw [hstep, ihc]
    simp

theorem check_outer_fold_st (s : St) (rs : List (String × List (String × Int × String))) :
    ∀ accL : List (String × List ResultEntry),
      rs.foldl (fun (acc : List (String × List ResultEntry) × St) pr =>
        let inner := pr.2.foldl (fun (a : List ResultEntry × St) c =>
          let e := check_component_st a.2 c.1 c.2.1 c.2.2
          (a.1 ++ [e.1], e.2)) ([], acc.2)
        (dinsert acc.1 pr.1 inner.1, inner.2)) (accL, s) =
      (rs.foldl (fun acc pr =>
        dinsert acc pr.1 (pr.2.map (fun c => check_component s.inventory c.1 c.2.1 c.2.2))) accL,
       s) := by
  induction rs with
  | nil => intro accL; simp
  | cons pr rest ihr =>
    intro accL
    rw [List.foldl_cons, List.foldl_cons]
    have hstep : (let inner := pr.2.foldl (fun (a : List ResultEntry × St) c =>
          let e := check_component_st a.2 c.1 c.2.1 c.2.2
          (a.1 ++ [e.1], e.2)) ([], (accL, s).2)
        (dinsert (accL, s).1 pr.1 inner.1, inner.2)) =
        (dinsert accL pr.1 (pr.2.map (fun c => check_component s.inventory c.1 c.2.1 c.2.2)), s) := by
      have h := check_inner_fold_st s pr.2 []
      simp only [List.nil_append] at h
      simp [h]
    rw [hstep, ihr]

theorem check_inventory_st_eq (s : St) :
    check_inventory_st s = (check_inventory s.inventory s.recipes, s) := by
  unfold check_inventory_st check_inventory
  exact check_outer_fold_st s s.recipes []

/-! Classification-band lemmas. -/

theorem divInt_half : (Rat.divInt 1 2 : ℚ) = 1/2 := by
  rw [Rat.divInt_eq_div]
  norm_num

theorem divInt_tenth : (Rat.divInt 1 10 : ℚ) = 1/10 := by
  rw [Rat.divInt_eq_div]
  norm_num

theorem ratio_of_eq_div {a b : Int} (h : b > 0) :
    ratio_of a b = (a : ℚ) / (b : ℚ) := by
  unfold ratio_of
  rw [if_pos h, Rat.divInt_eq_div]

theorem check_color_of_one_le {r : ℚ} (h : 1 ≤ r) : check_color r = "green" := by
  unfold check_color
  rw [if_pos h]

theorem check_color_of_half {r : ℚ} (h1 : 1/2 ≤ r) (h2 : r < 1) : check_color r = "yellow" := by
  unfold check_color
  simp only [divInt_half]
  rw [if_neg (by linarith : ¬r ≥ 1), if_pos (by linarith : r > 0), if_pos h1]

theorem check_color_of_lt_half {r : ℚ} (h2 : r < 1/2) : check_color r = "red" := by
  unfold check_color
  simp only [divInt_half]
  rw [if_neg (by linarith : ¬r ≥ 1)]
  by_cases hp : r > 0
  · rw [if_pos hp, if_neg (by linarith : ¬r ≥ 1/2)]
  · rw [if_neg hp]

theorem shortage_color_of_one_le {r : ℚ} (h : 1 ≤ r) : shortage_color r = "green" := by
  unfold shortage_color
  rw [if_pos h]

theorem shortage_color_of_half {r : ℚ} (h1 : 1/2 ≤ r) (h2 : r < 1) :
    shortage_color r = "yellow" := by
  unfold shortage_color
  simp only [divInt_half]
  rw [if_neg (by linarith : ¬r ≥ 1), if_pos h1]

theorem shortage_color_of_tenth {r : ℚ} (h1 : 1/10 ≤ r) (h2 : r < 1/2) :
    shortage_color r = "white" := by
  unfold shortage_color
  simp only [divInt_half, divInt_tenth]
  rw [if_neg (by linarith : ¬r ≥ 1), if_neg (by linarith : ¬r ≥ 1/2), if_pos h1]

theorem shortage_color_of_lt_tenth {r : ℚ} (h : r < 1/10) : shortage_color r = "red" := by
  unfold shortage_color
  simp only [divInt_half, divInt_tenth]
  rw [if_neg (by linarith : ¬r ≥ 1), if_neg (by linarith : ¬r ≥ 1/2),
    if_neg (by linarith : ¬r ≥ 1/10)]

theorem band_rank_check (r : ℚ) :
    band_rank (check_color r) = if 1 ≤ r then 3 else if 1/2 ≤ r then 2 else 0 := by
  by_cases h1 : 1 ≤ r
  · rw [check_color_of_one_le h1, if_pos h1]
    decide
  · by_cases h2 : 1/2 ≤ r
    · rw [check_color_of_half h2 (by linarith), if_neg h1, if_pos h2]
      decide
    · rw [check_color_of_lt_half (by linarith), if_neg h1, if_neg h2]
      decide

theorem band_rank_shortage (r : ℚ) :
    band_rank (shortage_color r) =
      if 1 ≤ r then 3 else if 1/2 ≤ r then 2 else if 1/10 ≤ r then 1 else 0 := by
  by_cases h1 : 1 ≤ r
  · rw [shortage_color_of_one_le h1, if_pos h1]
    decide
  · by_cases h2 : 1/2 ≤ r
    · rw [shortage_color_of_half h2 (by linarith), if_neg h1, if_pos h2]
      decide
    · by_cases h3 : 1/10 ≤ r
      · rw [shortage_color_of_tenth h3 (by linarith), if_neg h1, if_neg h2, if_pos h3]
        decide
      · rw [shortage_color_of_lt_tenth (by linarith), if_neg h1, if_neg h2, if_neg h3]
        decide

theorem check_color_green_iff (r : ℚ) : check_color r = "green" ↔ 1 ≤ r := by
  constructor
  · intro h
    by_contra hc
    push_neg at hc
    by_cases h2 : 1/2 ≤ r
    · rw [check_color_of_half h2 hc] at h
      exact absurd h (by decide)
    · rw [check_color_of_lt_half (by linarith)] at h
      exact absurd h (by decide)
  · exact check_color_of_one_le

theorem check_color_yellow_iff (r : ℚ) : check_color r = "yellow" ↔ 1/2 ≤ r ∧ r < 1 := by
  constructor
  · intro h
    by_cases h1 : 1 ≤ r
    · rw [check_color_of_one_le h1] at h
      exact absurd h (by decide)
    · by_cases h2 : 1/2 ≤ r
      · exact ⟨h2, by linarith⟩
      · rw [check_color_of_lt_half (by linarith)] at h
        exact absurd h (by decide)
  · rintro ⟨h1, h2⟩
    exact check_color_of_half h1 h2

theorem check_color_red_iff (r : ℚ) : check_color r = "red" ↔ r < 1/2 := by
  constructor
  · intro h
    by_cases h1 : 1 ≤ r
    · rw [check_color_of_one_le h1] at h
      exact absurd h (by decide)
    · by_cases h2 : 1/2 ≤ r
      · rw [check_color_of_half h2 (by linarith)] at h
        exact absurd h (by decide)
      · linarith
  · exact check_color_of_lt_half

theorem shortage_color_green_iff (r : ℚ) : shortage_color r = "green" ↔ 1 ≤ r := by
  constructor
  · intro h
    by_contra hc
    push_neg at hc
    by_cases h2 : 1/2 ≤ r
    · rw [shortage_color_of_half h2 hc] at h
      exact absurd h (by decide)
    · by_cases h3 : 1/10 ≤ r
      · rw [shortage_color_of_tenth h3 (by linarith)] at h
        exact absurd h (by decide)
      · rw [shortage_color_of_lt_tenth (by linarith)] at h
        exact absurd h (by decide)
  · exact shortage_color_of_one_le

theorem shortage_color_yellow_iff (r : ℚ) :
    shortage_color r = "yellow" ↔ 1/2 ≤ r ∧ r < 1 := by
  constructor
  · intro h
    by_cases h1 : 1 ≤ r
    · rw [shortage_color_of_one_le h1] at h
      exact absurd h (by decide)
    · by_cases h2 : 1/2 ≤ r
      · exact ⟨h2, by linarith⟩
      · by_cases h3 : 1/10 ≤ r
        · rw [shortage_color_of_tenth h3 (by linarith)] at h
          exact absurd h (by decide)
        · rw [shortage_color_of_lt_tenth (by linarith)] at h
          exact absurd h (by decide)
  · rintro ⟨h1, h2⟩
    exact shortage_color_of_half h1 h2

theorem shortage_color_white_iff (r : ℚ) :
    shortage_color r = "white" ↔ 1/10 ≤ r ∧ r < 1/2 := by
  constructor
  · intro h
    by_cases h1 : 1 ≤ r
    · rw [shortage_color_of_one_le h1] at h
      exact absurd h (by decide)
    · by_cases h2 : 1/2 ≤ r
      · rw [shortage_color_of_half h2 (by linarith)] at h
        exact absurd h (by decide)
      · by_cases h3 : 1/10 ≤ r
        · exact ⟨h3, by linarith⟩
        · rw [shortage_color_of_lt_tenth (by linarith)] at h
          exact absurd h (by decide)
  · rintro ⟨h1, h2⟩
    exact shortage_color_of_tenth h1 h2

theorem shortage_color_red_iff (r : ℚ) : shortage_color r = "red" ↔ r < 1/10 := by
  constructor
  · intro h
    by_cases h1 : 1 ≤ r
    · rw [shortage_color_of_one_le h1] at h
      exact absurd h (by decide)
    · by_cases h2 : 1/2 ≤ r
      · rw [shortage_color_of_half h2 (by linarith)] at h
        exact absurd h (by decide)
      · by_cases h3 : 1/10 ≤ r
        · rw [shortage_color_of_tenth h3 (by linarith)] at h
          exact absurd h (by decide)
        · linarith
  · exact shortage_color_of_lt_tenth

/-! The claims. -/

/-- C1, counterexample: on inventory `{BOLT: 50, NUT: 10}` and product
`WIDGET` with `BOLT` required 100 and `NUT` required 20 sourced from
`assembly//BOLT`, the code annotates NUT's chain reference to BOLT with
`250%` (= 50 / 20, the *parent* NUT's requirement as divisor), not the
claimed `50%` (= 50 / 100, BOLT's own requirement): the claim is false. -/
theorem c1_counterexample :
    check_inventory [("BOLT", 50), ("NUT", 10)]
        [("WIDGET", [("BOLT", 100, "plain"), ("NUT", 20, "assembly//BOLT")])] =
      [("WIDGET",
        [⟨"BOLT", 100, 50, "yellow", "plain"⟩,
         ⟨"NUT", 20, 10, "yellow", "assembly//BOLT(250%)"⟩])] ∧
    ("assembly//BOLT(250%)" : String) ≠ "assembly//BOLT(50%)" := by
  exact ⟨by decide, by decide⟩

/-- C1, amended: the availability ratio attached to a chain reference is
always computed with the current (parent) component's `requiredAmount` as
divisor; the referenced component's own BOM entry is never consulted (only
the inventory is, for the stock).  In particular NUT's chain annotation is
`250%` for *every* value of BOLT's own required amount, including 100. -/
theorem c1_amended (bolt_req : Int) :
    (check_inventory [("BOLT", 50), ("NUT", 10)]
        [("WIDGET", [("BOLT", bolt_req, "plain"), ("NUT", 20, "assembly//BOLT")])]).map
        (fun pr => (pr.1, pr.2.map (fun e => e.source))) =
      [("WIDGET", ["plain", "assembly//BOLT(250%)"])] := by
  rfl

/-- C2, counterexample: two runs whose processes differ only in an inventory
item (`SCREW`) that no recipe references produce *identical* reports, yet
their unneeded-inventory sets differ — so the value `run_inventory_checks`
returns cannot carry the per-process `unneededItems`: the claim is false. -/
theorem c2_counterexample :
    run_inventory_checks [⟨"P", [], [("PROD", [("A", 10, "src")])]⟩] =
      run_inventory_checks [⟨"P", [("SCREW", 5)], [("PROD", [("A", 10, "src")])]⟩] ∧
    find_unneeded_inventory [] [("PROD", [("A", 10, "src")])] ≠
      find_unneeded_inventory [("SCREW", 5)] [("PROD", [("A", 10, "src")])] := by
  exact ⟨by decide, by decide⟩

/-- C2, amended: `run_inventory_checks` returns the ordered two-level
structure `processName -> productID -> ordered per-component results`
(each process's slot holds exactly its `check_inventory` report); the
unneeded-items and shortages passes are executed per process but only
printed — they are not attached to the returned structure. -/
theorem c2_amended (ps : List Process) (p : Process) (hp : p ∈ ps)
    (hnd : (ps.map Process.name).Nodup) :
    dlookup (run_inventory_checks ps) p.name =
      some (check_inventory p.inventory p.recipe) := by
  unfold run_inventory_checks
  exact run_fold_lookup ps [] p hp hnd (by simp [dkeys])

/-- C2, witness for the amended theorem at a concrete one-process list. -/
theorem c2_amended_witness :
    ((⟨"P", [("A", 3)], [("X", [("A", 2, "s")])]⟩ : Process) ∈
        [(⟨"P", [("A", 3)], [("X", [("A", 2, "s")])]⟩ : Process)]) ∧
    (([(⟨"P", [("A", 3)], [("X", [("A", 2, "s")])]⟩ : Process)].map Process.name).Nodup) ∧
    dlookup (run_inventory_checks [⟨"P", [("A", 3)], [("X", [("A", 2, "s")])]⟩]) "P" =
      some (check_inventory [("A", 3)] [("X", [("A", 2, "s")])]) :=
  ⟨by decide, by decide,
    c2_amended [⟨"P", [("A", 3)], [("X", [("A", 2, "s")])]⟩]
      ⟨"P", [("A", 3)], [("X", [("A", 2, "s")])]⟩ (by decide) (by decide)⟩

/-- C3, counterexample: for component `A` whose chain source references `A`
itself, resolution terminates but renders the self-reference with its
ordinary availability annotation `A(50%)` — no "cycle" marker appears
anywhere in the output (the rendered source does not contain `cycle`). -/
theorem c3_counterexample :
    check_inventory [("A", 5)] [("P", [("A", 10, "proc//A")])] =
      [("P", [⟨"A", 10, 5, "yellow", "proc//A(50%)"⟩])] ∧
    pySplit "proc//A(50%)" "cycle" = ["proc//A(50%)"] := by
  exact ⟨by decide, by decide⟩

/-- C3, amended: resolution of self- or mutually-referential chains always
terminates because chain references are resolved exactly one level deep
(a stock lookup, no recursion), and such references are annotated like any
other reference — there is no cycle marker. -/
theorem c3_amended :
    check_inventory [("A", 4), ("B", 6)] [("P", [("A", 10, "p//B"), ("B", 8, "q//A")])] =
      [("P", [⟨"A", 10, 4, "red", "p//B(60%)"⟩, ⟨"B", 8, 6, "yellow", "q//A(50%)"⟩])] ∧
    pySplit "p//B(60%)" "cycle" = ["p//B(60%)"] ∧
    pySplit "q//A(50%)" "cycle" = ["q//A(50%)"] := by
  exact ⟨by decide, by decide, by decide⟩

/-- C4, counterexample: a descriptor with an empty reference list
(`assembly//`) does not yield a chain with *zero* references; Python's
`"".split("/")` yields one empty token, which is rendered `(0%)`, so the
resolved source is `assembly//(0%)` rather than `assembly//`. -/
theorem c4_counterexample :
    parse_source "assembly//" = some ("assembly", [""]) ∧
    resolve_source [] 10 "assembly//" = "assembly//(0%)" ∧
    ("assembly//(0%)" : String) ≠ "assembly//" := by
  exact ⟨by decide, by decide, by decide⟩

/-- C4, amended: parsing splits on the first `//` into (process, reference
list); the reference list splits on `/` in order; each token is trimmed,
and canonicalized to upper case only for the inventory lookup (it is
rendered trimmed in its original casing); unknown tokens render `(0%)`
without failing; a descriptor with no `//` passes through unchanged; and an
*empty* reference list yields one empty token rendered `(0%)`, not zero
references. -/
theorem c4_amended :
    (∀ (inv : List (String × Int)) (req : Int),
      resolve_source inv req "plain label" = "plain label") ∧
    parse_source "a//b//c" = some ("a", ["b", "", "c"]) ∧
    parse_source "asm//X/Y/Z" = some ("asm", ["X", "Y", "Z"]) ∧
    formatRef [("BOLT", 7)] 10 " bolt " = "bolt(70%)" ∧
    formatRef [("BOLT", 7)] 10 "XYZ" = "XYZ(0%)" ∧
    parse_source "assembly//" = some ("assembly", [""]) ∧
    parse_source "no delimiter here" = none := by
  exact ⟨fun inv req => rfl, by decide, by decide, by decide, by decide, by decide, by decide⟩

/-- C5, counterexample: the two call sites do not apply one canonical
banding.  At ratio 3/10 versus 1/20 the `check_inventory` banding does not
distinguish them (both `red`) while the `list_needed_shortages` banding
does (`white` versus `red`), and `check_inventory` also merges the claimed
`low` band (0 < r < 1/2) with the `missing` band (r = 0) into one colour. -/
theorem c5_counterexample :
    check_color (3/10) = check_color (1/20) ∧
    shortage_color (3/10) ≠ shortage_color (1/20) ∧
    check_color (3/10) = check_color 0 := by
  refine ⟨?_, ?_, ?_⟩
  · rw [check_color_of_lt_half (by norm_num : (3 : ℚ)/10 < 1/2),
      check_color_of_lt_half (by norm_num : (1 : ℚ)/20 < 1/2)]
  · rw [shortage_color_of_tenth (by norm_num : (1 : ℚ)/10 ≤ 3/10) (by norm_num : (3 : ℚ)/10 < 1/2),
      shortage_color_of_lt_tenth (by norm_num : (1 : ℚ)/20 < 1/10)]
    decide
  · rw [check_color_of_lt_half (by norm_num : (3 : ℚ)/10 < 1/2),
      check_color_of_lt_half (by norm_num : (0 : ℚ) < 1/2)]

/-- C5, amended: each call site's banding is monotone in the ratio and
partitions the ratio line without gaps or overlaps, but the two call sites
use different thresholds: `check_inventory` has three bands
(`green` for r ≥ 1, `yellow` for 1/2 ≤ r < 1, `red` for r < 1/2, merging
low and missing) while `list_needed_shortages` has four
(`green`, `yellow`, `white` for 1/10 ≤ r < 1/2, `red` for r < 1/10). -/
theorem c5_amended (r₁ r₂ : ℚ) (hle : r₁ ≤ r₂) :
    (band_rank (check_color r₁) ≤ band_rank (check_color r₂)) ∧
    (band_rank (shortage_color r₁) ≤ band_rank (shortage_color r₂)) ∧
    (check_color r₁ = "green" ↔ 1 ≤ r₁) ∧
    (check_color r₁ = "yellow" ↔ 1/2 ≤ r₁ ∧ r₁ < 1) ∧
    (check_color r₁ = "red" ↔ r₁ < 1/2) ∧
    (shortage_color r₁ = "green" ↔ 1 ≤ r₁) ∧
    (shortage_color r₁ = "yellow" ↔ 1/2 ≤ r₁ ∧ r₁ < 1) ∧
    (shortage_color r₁ = "white" ↔ 1/10 ≤ r₁ ∧ r₁ < 1/2) ∧
    (shortage_color r₁ = "red" ↔ r₁ < 1/10) := by
  refine ⟨?_, ?_, check_color_green_iff r₁, check_color_yellow_iff r₁,
    check_color_red_iff r₁, shortage_color_green_iff r₁, shortage_color_yellow_iff r₁,
    shortage_color_white_iff r₁, shortage_color_red_iff r₁⟩
  · rw [band_rank_check r₁, band_rank_check r₂]
    split_ifs <;> first | (exfalso; linarith) | norm_num
  · rw [band_rank_shortage r₁, band_rank_shortage r₂]
    split_ifs <;> first | (exfalso; linarith) | norm_num

/-- C5, witness for the amended theorem at the ratios 1/4 and 3/4. -/
theorem c5_amended_witness :
    ((1 : ℚ)/4 ≤ 3/4) ∧
    ((band_rank (check_color ((1 : ℚ)/4)) ≤ band_rank (check_color ((3 : ℚ)/4))) ∧
     (band_rank (shortage_color ((1 : ℚ)/4)) ≤ band_rank (shortage_color ((3 : ℚ)/4))) ∧
     (check_color ((1 : ℚ)/4) = "green" ↔ 1 ≤ (1 : ℚ)/4) ∧
     (check_color ((1 : ℚ)/4) = "yellow" ↔ 1/2 ≤ (1 : ℚ)/4 ∧ (1 : ℚ)/4 < 1) ∧
     (check_color ((1 : ℚ)/4) = "red" ↔ (1 : ℚ)/4 < 1/2) ∧
     (shortage_color ((1 : ℚ)/4) = "green" ↔ 1 ≤ (1 : ℚ)/4) ∧
     (shortage_color ((1 : ℚ)/4) = "yellow" ↔ 1/2 ≤ (1 : ℚ)/4 ∧ (1 : ℚ)/4 < 1) ∧
     (shortage_color ((1 : ℚ)/4) = "white" ↔ 1/10 ≤ (1 : ℚ)/4 ∧ (1 : ℚ)/4 < 1/2) ∧
     (shortage_color ((1 : ℚ)/4) = "red" ↔ (1 : ℚ)/4 < 1/10)) :=
  ⟨by norm_num, c5_amended ((1 : ℚ)/4) ((3 : ℚ)/4) (by norm_num)⟩

/-- C6: a required amount of zero never divides — the top-level ratio is 0
(`inv06.py:42`), and a chain reference whose divisor is 0 is annotated `0%`
in both branches (`inv06.py:66`); resolution is total and never raises. -/
theorem c6_zero_required :
    (∀ a : Int, ratio_of a 0 = 0) ∧
    (∀ (inv : List (String × Int)) (rc : String),
      formatRef inv 0 rc = pyTrim rc ++ "(" ++ "0%" ++ ")") := by
  constructor
  · intro a
    simp [ratio_of]
  · intro inv rc
    unfold formatRef
    cases dlookup inv (pyUpper (pyTrim rc)) with
    | none => rfl
    | some stock =>
      show pyTrim rc ++ "(" ++ fmtPct (ratio_of stock 0) ++ ")" =
        pyTrim rc ++ "(" ++ "0%" ++ ")"
      have h0 : ratio_of stock 0 = 0 := by simp [ratio_of]
      rw [h0, show fmtPct 0 = "0%" from by decide]

/-- C7: for a duplicate-free, non-negative inventory the shortages mapping
binds exactly the items whose summed requirement over all BOMs exceeds the
single shared stock, to that excess (stock subtracted once, only strictly
positive remainders kept). -/
theorem c7_shortages (inventory : List (String × Int))
    (recipes : List (String × List (String × Int × String))) (k : String)
    (hinv : (dkeys inventory).Nodup) (hpos : ∀ p ∈ inventory, 0 ≤ p.2) :
    dlookup (list_needed_shortages inventory recipes) k =
      if dget inventory k 0 < total_required_spec recipes k
      then some (total_required_spec recipes k - dget inventory k 0)
      else none := by
  unfold list_needed_shortages
  have hndA : (dkeys (accumulate_needed recipes)).Nodup := nodup_accumulate recipes
  have hndB : (dkeys (subtract_stock inventory (accumulate_needed recipes))).Nodup := by
    rw [sub_fold_keys]
    exact hndA
  rw [filter_pos_lookup _ _ hndB, sub_fold_lookup inventory _ k hinv, acc_needed_lookup]
  by_cases href : (recipes.any fun pr => pr.2.any fun c => decide (c.1 = k)) = true
  · rw [if_pos href, Option.map_some', Option.some_bind]
    have hiff : (total_required_spec recipes k - dget inventory k 0 > 0) ↔
        (dget inventory k 0 < total_required_spec recipes k) := sub_pos
    rw [if_congr hiff rfl rfl]
  · rw [if_neg href, Option.map_none', Option.none_bind]
    have htot : total_required_spec recipes k = 0 :=
      total_spec_eq_zero (Bool.not_eq_true _ ▸ href)
    have hst : 0 ≤ dget inventory k 0 := by
      cases hl : dlookup inventory k with
      | none => simp [dget, hl]
      | some v => simpa [dget, hl] using hpos (k, v) (dlookup_mem hl)
    rw [htot, if_neg (by omega : ¬dget inventory k 0 < 0)]

/-- C7, witness: two products need `WASHER` 30 and 40, stock is 50, and the
reported shortage is (30 + 40) − 50 = 20. -/
theorem c7_shortages_witness :
    (dkeys [("WASHER", (50 : Int))]).Nodup ∧
    (∀ p ∈ [("WASHER", (50 : Int))], 0 ≤ p.2) ∧
    dlookup (list_needed_shortages [("WASHER", 50)]
        [("P1", [("WASHER", 30, "s")]), ("P2", [("WASHER", 40, "t")])]) "WASHER" =
      (if dget [("WASHER", (50 : Int))] "WASHER" 0 <
          total_required_spec [("P1", [("WASHER", 30, "s")]), ("P2", [("WASHER", 40, "t")])]
            "WASHER"
       then some (total_required_spec
          [("P1", [("WASHER", 30, "s")]), ("P2", [("WASHER", 40, "t")])] "WASHER" -
          dget [("WASHER", (50 : Int))] "WASHER" 0)
       else none) :=
  ⟨by decide, by decide,
    c7_shortages [("WASHER", 50)]
      [("P1", [("WASHER", 30, "s")]), ("P2", [("WASHER", 40, "t")])] "WASHER"
      (by decide) (by decide)⟩

/-- C8: the unneeded-inventory set contains exactly the inventory item IDs
that occur as a component key in no BOM across all loaded recipes. -/
theorem c8_unneeded (inventory : List (String × Int))
    (recipes : List (String × List (String × Int × String))) (k : String) :
    k ∈ dkeys (find_unneeded_inventory inventory recipes) ↔
      k ∈ dkeys inventory ∧ ∀ pr ∈ recipes, k ∉ dkeys pr.2 :=
  mem_unneeded_iff inventory recipes k

/-- C9: in the state-threaded translation (where every read of the input
mappings passes the state), the resolver returns the state unchanged and
computes the pure report, resolving twice yields the identical report, and
the two aggregator passes also leave the input mappings untouched. -/
theorem c9_no_mutation (s : St) :
    check_inventory_st s = (check_inventory s.inventory s.recipes, s) ∧
    (check_inventory_st ((check_inventory_st s).2)).1 = (check_inventory_st s).1 ∧
    find_unneeded_inventory_st s = (find_unneeded_inventory s.inventory s.recipes, s) ∧
    list_needed_shortages_st s = (list_needed_shortages s.inventory s.recipes, s) := by
  refine ⟨check_inventory_st_eq s, ?_, rfl, rfl⟩
  have h := check_inventory_st_eq s
  rw [h]
  show (check_inventory_st s).1 = check_inventory s.inventory s.recipes
  rw [h]

/-- C10: no item is reported both as a shortage and as unneeded inventory —
every shortage key is a component of some BOM, while every unneeded item is
a component of none, so the two key sets are disjoint. -/
theorem c10_disjoint (inventory : List (String × Int))
    (recipes : List (String × List (String × Int × String))) :
    dkeys (list_needed_shortages inventory recipes) ∩
      dkeys (find_unneeded_inventory inventory recipes) = [] := by
  rw [List.eq_nil_iff_forall_not_mem]
  intro x hx
  rw [List.mem_inter_iff] at hx
  obtain ⟨h1, h2⟩ := hx
  unfold list_needed_shortages at h1
  have hA : x ∈ dkeys (subtract_stock inventory (accumulate_needed recipes)) :=
    mem_dkeys_filter h1
  rw [sub_fold_keys] at hA
  rw [mem_dkeys_iff_lookup, acc_needed_lookup] at hA
  by_cases href : (recipes.any fun pr => pr.2.any fun c => decide (c.1 = x)) = true
  · rw [mem_unneeded_iff] at h2
    simp only [List.any_eq_true, decide_eq_true_eq] at href
    obtain ⟨pr, hpr, c, hc, hck⟩ := href
    have hmem : c.1 ∈ dkeys pr.2 := List.mem_map_of_mem _ hc
    rw [hck] at hmem
    exact h2.2 pr hpr hmem
  · rw [if_neg href] at hA
    exact hA rfl

end Inv06
